import Mathlib

/-!
Verification of the weight-patch injection mechanism, alpha-mask compositing
and mask conversion of the inpaint-nodes pipeline (`nodes.py`).

Tensors are embedded as a shape together with flattened rational data; the
in-place update `weight.data += ...` performed by `calculate_weight_patched`
is modelled by returning the mutated tensor value.  Python dicts are embedded
as association lists iterated in insertion order.
-/

namespace InpaintNodes

/-- A tensor: a shape and its (flattened) element data, with exact rational
arithmetic standing in for float32. -/
structure Tensor where
  shape : List ℕ
  data : List ℚ
deriving DecidableEq

/-- The second component `v` of a patch tuple: either a `("fooocus", (w1, min, max))`
tuple, or any other patch value (tuple with a different tag, or non-tuple),
which `calculate_weight_patched` does not touch. -/
inductive PatchValue where
  | fooocus (w1 : Tensor) (wmin wmax : ℚ)
  | other (tag : String) (payload : List Tensor)
deriving DecidableEq

/-- A patch tuple `(alpha, v, _)` as destructured by `calculate_weight_patched`. -/
abbrev Patch := ℚ × PatchValue × ℚ

/-- The type of a weight resolver, i.e. of `ModelPatcher.calculate_weight`
viewed as a function of `(patches, weight, key)`. -/
abbrev Resolver := List Patch → Tensor → String → Tensor

/-- The fooocus branch of `calculate_weight_patched` (nodes.py lines 90-99):
if `w1.shape == weight.shape`, dequantize `w1` via
`(w1/255)*(w_max-w_min)+w_min` and add `alpha` times that to the weight data
in place; otherwise print a shape-mismatch diagnostic and leave the weight
untouched. -/
def applyFooocusPatch (alpha : ℚ) (w1 : Tensor) (wmin wmax : ℚ) (w : Tensor) : Tensor :=
  if w1.shape = w.shape then
    { shape := w.shape,
      data := List.zipWith (fun a b => a + alpha * ((b / 255) * (wmax - wmin) + wmin)) w.data w1.data }
  else w

/-- One iteration of the `for patch in patches` loop of
`calculate_weight_patched`: fooocus patches are applied via
`applyFooocusPatch`; every other patch value falls through the
`if isinstance(v, tuple) and v[0] == "fooocus"` test and leaves the weight
unchanged (the loop body has no other branch). -/
def cwStep (w : Tensor) (p : Patch) : Tensor :=
  match p.2.1 with
  | PatchValue.fooocus w1 wmin wmax => applyFooocusPatch p.1 w1 wmin wmax w
  | PatchValue.other _ _ => w

/-- `calculate_weight_patched(self, patches, weight, key)` (nodes.py lines 84-100).
The first parameter is named `self` in the source but actually receives the
original resolver (see `inject_patched_calculate_weight`); the source never
uses it.  The returned tensor is the final value of `weight` after the
in-place updates (the Python function itself returns `None`). -/
def calculate_weight_patched (self : Resolver) (patches : List Patch)
    (weight : Tensor) (key : String) : Tensor :=
  patches.foldl cwStep weight

/-- The process-global state touched by `inject_patched_calculate_weight`:
the one-time flag `injected_model_patcher_calculate_weight` and the current
`ModelPatcher.calculate_weight` attribute. -/
structure PatcherState where
  injected : Bool
  calcWeight : Resolver

/-- `inject_patched_calculate_weight` (nodes.py lines 69-80): if the flag is
unset, capture the current `ModelPatcher.calculate_weight` as the original,
install `patched_calculate_weight` (which prepends the captured original as
the first argument of `calculate_weight_patched`) and set the flag; otherwise
do nothing. -/
def inject_patched_calculate_weight (s : PatcherState) : PatcherState :=
  if s.injected then s
  else
    { injected := true,
      calcWeight := fun patches weight key =>
        calculate_weight_patched s.calcWeight patches weight key }

/-- `load_fooocus_patch(lora, to_load)` (nodes.py lines 50-62).  Returns the
built `patch_dict` together with the `not_loaded` count that the source
prints as a diagnostic: the number of keys of `lora` that are not members of
`loaded_keys` (the `to_load` keys for which a patch was stored). -/
def load_fooocus_patch {α : Type} (lora : List (String × α))
    (to_load : List (String × String)) : List (String × (String × α)) × ℕ :=
  let patch_dict := to_load.filterMap fun kv =>
    (List.lookup kv.2 lora).map fun patch => (kv.1, ("fooocus", patch))
  let loaded_keys := patch_dict.map Prod.fst
  let not_loaded := (lora.map Prod.fst).countP fun x => !(loaded_keys.contains x)
  (patch_dict, not_loaded)

/-- A resolver that increments every weight element: a stand-in for an
original `calculate_weight` that actually applies (non-fooocus) patches. -/
def origExample : Resolver := fun _ w _ => { shape := w.shape, data := w.data.map (· + 1) }

/-- A resolver that returns the weight unchanged. -/
def idResolver : Resolver := fun _ w _ => w

/-- A patch whose value is not tagged `"fooocus"`. -/
def nonFooocusPatch : Patch := (1, PatchValue.other "diff" [], 0)

/-- A concrete 1-element weight tensor. -/
def weightEx : Tensor := { shape := [1], data := [5] }

/-- A concrete diff dict: one entry keyed `"b"`. -/
def loraEx : List (String × ℚ) := [("b", 7)]

/-- A concrete key map sending target key `"a"` to the mapped name `"b"`. -/
def toLoadEx : List (String × String) := [("a", "b")]

/-- A single-channel image or mask plane: an infinite grid of rationals
indexed by integer pixel coordinates (a concrete finite image is zero outside
its extent). -/
abbrev Grid := ℤ → ℤ → ℚ

/-- Pointwise `Tensor.floor()`, as a rational value. -/
def floorQ (x : ℚ) : ℚ := ⌊x⌋

/-- `mask.floor()` on a grid. -/
def floorG (m : Grid) : Grid := fun i j => floorQ (m i j)

/-- Modelled from the spec: `make_odd` lives in the repository's `util`
module, which is not part of the sources; per §4.3 any even positive integer
is incremented by 1 (filters require odd kernel radius) and zero stays
zero. -/
def make_odd (x : ℕ) : ℕ := if 0 < x ∧ x % 2 = 0 then x + 1 else x

/-- The half-width of a size-`falloff` kernel window, as an integer offset. -/
def kernelRadius (falloff : ℕ) : ℤ := ((falloff / 2 : ℕ) : ℤ)

/-- Modelled from the spec: `binary_erosion` lives in the missing `util`
module; per §4.2 it is a morphological erosion of radius `falloff` of the
(binary) floored mask: a pixel stays 1 only when every pixel of the kernel
window around it is 1, so the active region only shrinks. -/
def binary_erosion (g : Grid) (falloff : ℕ) : Grid :=
  fun i j =>
    if ∀ s ∈ Finset.Icc (-(kernelRadius falloff)) (kernelRadius falloff),
        ∀ t ∈ Finset.Icc (-(kernelRadius falloff)) (kernelRadius falloff),
          1 ≤ g (i + s) (j + t)
    then 1 else 0

/-- The normalized 1-D blur kernel weight at offset `t` of a radius-`r`
window: binomial coefficients approximate the Gaussian; the weights are
non-negative and sum to 1 over the window. -/
def kernelW (r : ℕ) (t : ℕ) : ℚ := (Nat.choose (2 * r) t : ℚ) / 4 ^ r

/-- Modelled from the spec: `gaussian_blur` lives in the missing `util`
module; per §4.2 it is a separable blur of (odd) kernel size `falloff`: each
output pixel is a convex combination of the window pixels with normalized
Gaussian-like weights. -/
def gaussian_blur (g : Grid) (falloff : ℕ) : Grid :=
  fun i j =>
    ∑ s ∈ Finset.range (2 * (falloff / 2) + 1),
      ∑ t ∈ Finset.range (2 * (falloff / 2) + 1),
        kernelW (falloff / 2) s * kernelW (falloff / 2) t
          * g (i + s - (falloff / 2 : ℕ)) (j + t - (falloff / 2 : ℕ))

/-- The Alpha Mask Builder step as used by `MaskedFill.fill` (nodes.py lines
235-240) and `MaskedBlur.fill` (lines 286-291): `alpha = mask.floor()`, and
when the (odd) falloff is positive,
`alpha = alpha * gaussian_blur(binary_erosion(alpha, falloff), falloff)`. -/
def build_alpha (m : Grid) (falloff : ℕ) : Grid :=
  if 0 < falloff then
    fun i j => floorG m i j * gaussian_blur (binary_erosion (floorG m) falloff) falloff i j
  else floorG m

/-- A 3-channel image: one grid per color channel. -/
abbrev Img := Fin 3 → Grid

/-- The `fill == "neutral"` branch of `MaskedFill.fill` (nodes.py lines
233-247): `falloff = make_odd(falloff)`, build the soft alpha, then per
channel subtract 0.5 in place, multiply by `m = 1 - alpha`, and add 0.5
back. -/
def maskedFill_neutral (image : Img) (mask : Grid) (falloff : ℕ) : Img :=
  let alpha := build_alpha mask (make_odd falloff)
  let m := fun i j => 1 - alpha i j
  let step1 := fun (c : Fin 3) i j => image c i j - 1 / 2
  let step2 := fun (c : Fin 3) i j => step1 c i j * m i j
  fun c i j => step2 c i j + 1 / 2

/-- The per-item compositing step of `InpaintWithModel.inpaint` (nodes.py
line 397): `work_image = image[i] + (work_image - image[i]) * mask[i].floor()`. -/
def compositeChannels (orig modelOut : Img) (mask : Grid) : Img :=
  fun c i j => orig c i j + (modelOut c i j - orig c i j) * floorQ (mask i j)

/-- The mask-batch broadcast of `InpaintWithModel.inpaint` (nodes.py lines
376-378): when the mask batch size differs from the image batch size, only
`mask[0]` is kept, repeated once per image.  (On an empty mask batch the
Python indexing would raise; that case is unreachable under the claims.) -/
def broadcastMasks (batch : ℕ) (masks : List Grid) : List Grid :=
  if masks.length = batch then masks
  else
    match masks with
    | [] => []
    | m :: _ => List.replicate batch m

/-- The batch loop of `InpaintWithModel.inpaint` (nodes.py lines 380-402).
`runItem` abstracts the per-item geometry normalization, model forward pass,
optional upscale and geometry denormalization (nodes.py lines 383-396, whose
`resize_square` and `undo_resize_square` helpers live in the missing `util`
module): it maps an item's image and its broadcast mask to the denormalized
model output, which line 397 composites with the original image through the
floored mask. -/
def inpaintWithModel (runItem : Img → Grid → Img) (images : List Img)
    (masks : List Grid) : List Img :=
  let bm := broadcastMasks images.length masks
  (images.zip bm).map fun im => compositeChannels im.1 (runItem im.1 im.2) im.2

/-- The all-zero grid (also the out-of-range default used when indexing
lists of grids in theorem statements). -/
def gzero : Grid := fun _ _ => 0

/-- The all-zero image (out-of-range default for image batches). -/
def izero : Img := fun _ _ _ => 0

/-- The all-ones grid (a fully opaque mask). -/
def gone : Grid := fun _ _ => 1

/-- A concrete constant test image: value 3/10 in every channel. -/
def imgEx : Img := fun _ _ _ => 3 / 10

/-- A stub model run that returns its input image unchanged. -/
def runId : Img → Grid → Img := fun img _ => img

/-- `Tensor.clamp(0, 1)` on a rational value. -/
def clampQ (x : ℚ) : ℚ := max 0 (min 1 x)

/-- `DenoiseToCompositingMask.convert` (nodes.py lines 426-430) on a single
mask value: the assertion `0.0 <= offset < threshold <= 1.0` is modelled by
returning `none` (the raised `AssertionError`) when it fails; otherwise the
value is remapped by `(mask - offset) * (1 / (threshold - offset))` and
clamped to `[0, 1]`. -/
def convert (mask offset threshold : ℚ) : Option ℚ :=
  if 0 ≤ offset ∧ offset < threshold ∧ threshold ≤ 1 then
    some (clampQ ((mask - offset) * (1 / (threshold - offset))))
  else none

end InpaintNodes

namespace InpaintNodes

theorem cwStep_shape (w : Tensor) (p : Patch) : (cwStep w p).shape = w.shape := by
  rcases p with ⟨alpha, v, s⟩
  cases v with
  | fooocus w1 wmin wmax =>
      simp only [cwStep, applyFooocusPatch]
      split <;> rfl
  | other tag payload => rfl

theorem calculate_weight_patched_shape (self : Resolver) (patches : List Patch)
    (weight : Tensor) (key : String) :
    (calculate_weight_patched self patches weight key).shape = weight.shape := by
  unfold calculate_weight_patched
  induction patches generalizing weight with
  | nil => rfl
  | cons p ps ih =>
      simp only [List.foldl_cons]
      rw [ih (cwStep weight p), cwStep_shape]

/-- C1: the claim says `calculate_weight_patched` delegates to the original
weight-resolution behavior for non-fooocus patches.  The code never calls the
original resolver it receives (bound to the unused parameter `self`): on a
patch list containing only a non-fooocus patch it leaves the weight unchanged,
while the original resolver produces a different weight from the same
arguments. -/
theorem calculate_weight_patched_ignores_original :
    calculate_weight_patched origExample [nonFooocusPatch] weightEx "key" = weightEx
      ∧ origExample [nonFooocusPatch] weightEx "key" ≠ weightEx := by
  constructor
  · rfl
  · norm_num [origExample, weightEx, nonFooocusPatch, Tensor.mk.injEq]

/-- C3: a fooocus patch whose quantized tensor shape differs from the target
weight's shape is skipped entirely: the run over a patch list containing it
equals the run over the same list with that patch removed, so the weight is
never partially modified by it and the remaining patches are still applied. -/
theorem calculate_weight_patched_shape_mismatch_skip (self : Resolver) (key : String)
    (ps₁ ps₂ : List Patch) (alpha s wmin wmax : ℚ) (w1 w : Tensor)
    (h : w1.shape ≠ w.shape) :
    calculate_weight_patched self (ps₁ ++ (alpha, PatchValue.fooocus w1 wmin wmax, s) :: ps₂) w key
      = calculate_weight_patched self (ps₁ ++ ps₂) w key := by
  unfold calculate_weight_patched
  rw [List.foldl_append, List.foldl_append, List.foldl_cons]
  have hacc : (List.foldl cwStep w ps₁).shape = w.shape :=
    calculate_weight_patched_shape self ps₁ w key
  have hstep : cwStep (List.foldl cwStep w ps₁) (alpha, PatchValue.fooocus w1 wmin wmax, s)
      = List.foldl cwStep w ps₁ := by
    simp only [cwStep, applyFooocusPatch]
    rw [if_neg]
    rw [hacc]
    exact h
  rw [hstep]

/-- Witness for C3 at a concrete input: a `[2]`-shaped patch against a
`[1]`-shaped weight is skipped and the (empty) remainder still runs. -/
theorem calculate_weight_patched_shape_mismatch_skip_witness :
    (Tensor.mk [2] [0, 0]).shape ≠ weightEx.shape
      ∧ calculate_weight_patched idResolver
          [((1 : ℚ), PatchValue.fooocus (Tensor.mk [2] [0, 0]) 0 1, (0 : ℚ))] weightEx "k"
        = calculate_weight_patched idResolver [] weightEx "k" := by
  refine ⟨by decide, ?_⟩
  exact calculate_weight_patched_shape_mismatch_skip idResolver "k" [] [] 1 0 0 1
    (Tensor.mk [2] [0, 0]) weightEx (by decide)

/-- C2 (amended): for a fooocus patch whose tensor shape matches the weight,
the weight is updated elementwise by exactly
`weight += alpha * ((uint8/255)*(max-min)+min)`; and applying such a patch
with `alpha = 1`, `(min, max) = (0, 1)` whose uint8 values quantize a target
value `t` (rounding error at most `1/2` in uint8 units) to a zero initial
weight element reproduces `t` within `1/255`. -/
theorem calculate_weight_patched_fooocus_formula (self : Resolver) (key : String)
    (alpha s wmin wmax : ℚ) (w1 w : Tensor)
    (hsh : w1.shape = w.shape) (i : ℕ)
    (hiw : i < w.data.length) (hi1 : i < w1.data.length) :
    (calculate_weight_patched self [(alpha, PatchValue.fooocus w1 wmin wmax, s)] w key).data.getD i 0
        = w.data.getD i 0 + alpha * ((w1.data.getD i 0 / 255) * (wmax - wmin) + wmin)
      ∧ ∀ t : ℚ, w.data.getD i 0 = 0 → alpha = 1 → wmin = 0 → wmax = 1 →
          |w1.data.getD i 0 - 255 * t| ≤ 1 / 2 →
          |(calculate_weight_patched self
              [(alpha, PatchValue.fooocus w1 wmin wmax, s)] w key).data.getD i 0 - t| ≤ 1 / 255 := by
  have hres : (calculate_weight_patched self [(alpha, PatchValue.fooocus w1 wmin wmax, s)] w key).data
      = List.zipWith (fun a b => a + alpha * ((b / 255) * (wmax - wmin) + wmin)) w.data w1.data := by
    simp [calculate_weight_patched, cwStep, applyFooocusPatch, hsh]
  have hlen : i < (List.zipWith (fun a b => a + alpha * ((b / 255) * (wmax - wmin) + wmin))
      w.data w1.data).length := by
    rw [List.length_zipWith]
    omega
  have hmain : (calculate_weight_patched self
        [(alpha, PatchValue.fooocus w1 wmin wmax, s)] w key).data.getD i 0
      = w.data.getD i 0 + alpha * ((w1.data.getD i 0 / 255) * (wmax - wmin) + wmin) := by
    rw [hres, List.getD_eq_getElem _ _ hlen, List.getElem_zipWith,
      List.getD_eq_getElem _ _ hiw, List.getD_eq_getElem _ _ hi1]
  refine ⟨hmain, ?_⟩
  intro t h0 ha hmn hmx hq
  rw [hmain, h0, ha, hmn, hmx]
  have hrw : (0 : ℚ) + 1 * ((w1.data.getD i 0 / 255) * (1 - 0) + 0) - t
      = (w1.data.getD i 0 - 255 * t) / 255 := by ring
  rw [hrw, abs_div, abs_of_nonneg (by norm_num : (0 : ℚ) ≤ 255)]
  calc |w1.data.getD i 0 - 255 * t| / 255 ≤ (1 / 2) / 255 := by
        exact (div_le_div_iff_of_pos_right (by norm_num)).mpr hq
    _ ≤ 1 / 255 := by norm_num

/-- Witness for C2 at a concrete input: a `0`-valued weight element, patch
value `128` quantizing the target `1/2`, producing `128/255`, within `1/255`
of `1/2`. -/
theorem calculate_weight_patched_fooocus_formula_witness :
    (calculate_weight_patched idResolver
          [((1 : ℚ), PatchValue.fooocus (Tensor.mk [1] [128]) 0 1, (0 : ℚ))]
          (Tensor.mk [1] [0]) "k").data.getD 0 0
        = (Tensor.mk [1] ([0] : List ℚ)).data.getD 0 0 + 1 * (((Tensor.mk [1] ([128] : List ℚ)).data.getD 0 0 / 255) * (1 - 0) + 0)
      ∧ |(calculate_weight_patched idResolver
          [((1 : ℚ), PatchValue.fooocus (Tensor.mk [1] [128]) 0 1, (0 : ℚ))]
          (Tensor.mk [1] [0]) "k").data.getD 0 0 - 1 / 2| ≤ 1 / 255 := by
  refine ⟨(calculate_weight_patched_fooocus_formula idResolver "k" 1 0 0 1
      (Tensor.mk [1] [128]) (Tensor.mk [1] [0]) rfl 0 (by decide) (by decide)).1, ?_⟩
  exact (calculate_weight_patched_fooocus_formula idResolver "k" 1 0 0 1
      (Tensor.mk [1] [128]) (Tensor.mk [1] [0]) rfl 0 (by decide) (by decide)).2 (1 / 2)
    rfl rfl rfl rfl (by norm_num [abs_le])

/-- Counterexample for C2 as stated: applying a fooocus patch with
`alpha = 1`, `(min, max) = (0, 1)` whose uint8 value `255` quantizes the
weight value `1` itself yields `2` (the patch is *added* to the weight), which
is not within `1/255` of the original weight. -/
theorem calculate_weight_patched_identity_quant_cex :
    (calculate_weight_patched idResolver
          [((1 : ℚ), PatchValue.fooocus (Tensor.mk [1] [255]) 0 1, (0 : ℚ))]
          (Tensor.mk [1] [1]) "k").data = [2]
      ∧ ¬ |(calculate_weight_patched idResolver
          [((1 : ℚ), PatchValue.fooocus (Tensor.mk [1] [255]) 0 1, (0 : ℚ))]
          (Tensor.mk [1] [1]) "k").data.getD 0 0 - 1| ≤ 1 / 255 := by
  have h : (calculate_weight_patched idResolver
        [((1 : ℚ), PatchValue.fooocus (Tensor.mk [1] [255]) 0 1, (0 : ℚ))]
        (Tensor.mk [1] [1]) "k").data = [2] := by
    simp [calculate_weight_patched, cwStep, applyFooocusPatch]
    norm_num
  refine ⟨h, ?_⟩
  rw [h]
  norm_num

/-- C5 (amended): `load_fooocus_patch` returns exactly those target keys of
`to_load` whose mapped name has an entry in `lora`, each tagged `"fooocus"`
with the lora entry; and the reported not-loaded count equals the number of
`lora` keys that are not among the target keys for which a patch was loaded. -/
theorem load_fooocus_patch_spec {α : Type} (lora : List (String × α))
    (to_load : List (String × String)) (k : String) (e : String × α) :
    ((k, e) ∈ (load_fooocus_patch lora to_load).1 ↔
        ∃ v p, (k, v) ∈ to_load ∧ List.lookup v lora = some p ∧ e = ("fooocus", p))
      ∧ (load_fooocus_patch lora to_load).2
          = (lora.map Prod.fst).countP
              (fun x => !(((load_fooocus_patch lora to_load).1.map Prod.fst).contains x)) := by
  refine ⟨?_, rfl⟩
  simp only [load_fooocus_patch, List.mem_filterMap, Option.map_eq_some']
  constructor
  · rintro ⟨⟨k', v⟩, hmem, p, hp, heq⟩
    obtain ⟨h1, h2⟩ := Prod.mk.injEq .. ▸ heq
    exact ⟨v, p, h1 ▸ hmem, hp, h2.symm⟩
  · rintro ⟨v, p, hmem, hp, rfl⟩
    exact ⟨(k, v), hmem, p, hp, rfl⟩

/-- Counterexample for C5 as stated: with `lora = [("b", 7)]` and
`to_load = [("a", "b")]`, the lora key `"b"` is matched (and loaded) by the
key-map entry `("a", "b")`, so the claim predicts a not-loaded count of `0`,
yet the code reports `1` (it compares lora keys against the *target* keys of
the loaded entries, a different namespace). -/
theorem load_fooocus_patch_count_cex :
    (load_fooocus_patch loraEx toLoadEx).2 = 1
      ∧ (loraEx.map Prod.fst).countP (fun x => !((toLoadEx.map Prod.snd).contains x)) = 0 := by
  constructor <;> rfl

/-- C4: `inject_patched_calculate_weight` is idempotent.  A second call is a
no-op guarded by the one-time flag, so the resolver installed after two calls
is exactly the one installed after one call, and the flag is set after any
call. -/
theorem inject_patched_calculate_weight_idempotent (s : PatcherState) :
    inject_patched_calculate_weight (inject_patched_calculate_weight s)
        = inject_patched_calculate_weight s
      ∧ (inject_patched_calculate_weight s).injected = true := by
  unfold inject_patched_calculate_weight
  by_cases h : s.injected
  · simp [h]
  · simp [h]

theorem kernelW_nonneg (r t : ℕ) : 0 ≤ kernelW r t := by
  unfold kernelW
  positivity

theorem kernelW_sum (r : ℕ) : ∑ t ∈ Finset.range (2 * r + 1), kernelW r t = 1 := by
  have h4 : ((4 : ℚ) ^ r) ≠ 0 := by positivity
  unfold kernelW
  rw [← Finset.sum_div, div_eq_one_iff_eq h4, ← Nat.cast_sum, Nat.sum_range_choose]
  push_cast
  rw [pow_mul]
  norm_num

theorem gaussian_blur_bounds (g : Grid) (falloff : ℕ)
    (hg : ∀ p q : ℤ, 0 ≤ g p q ∧ g p q ≤ 1) (i j : ℤ) :
    0 ≤ gaussian_blur g falloff i j ∧ gaussian_blur g falloff i j ≤ 1 := by
  constructor
  · refine Finset.sum_nonneg fun s _ => Finset.sum_nonneg fun t _ => ?_
    exact mul_nonneg (mul_nonneg (kernelW_nonneg _ _) (kernelW_nonneg _ _)) (hg _ _).1
  · have h1 : gaussian_blur g falloff i j
        ≤ ∑ s ∈ Finset.range (2 * (falloff / 2) + 1),
            ∑ t ∈ Finset.range (2 * (falloff / 2) + 1),
              kernelW (falloff / 2) s * kernelW (falloff / 2) t := by
      refine Finset.sum_le_sum fun s _ => Finset.sum_le_sum fun t _ => ?_
      exact mul_le_of_le_one_right
        (mul_nonneg (kernelW_nonneg _ _) (kernelW_nonneg _ _)) (hg _ _).2
    have h2 : (∑ s ∈ Finset.range (2 * (falloff / 2) + 1),
        ∑ t ∈ Finset.range (2 * (falloff / 2) + 1),
          kernelW (falloff / 2) s * kernelW (falloff / 2) t) = 1 := by
      rw [← Finset.sum_mul_sum, kernelW_sum]
      norm_num
    exact h2 ▸ h1

theorem binary_erosion_bounds (g : Grid) (falloff : ℕ) (p q : ℤ) :
    0 ≤ binary_erosion g falloff p q ∧ binary_erosion g falloff p q ≤ 1 := by
  unfold binary_erosion
  split <;> norm_num

theorem broadcastMasks_length (batch : ℕ) (masks : List Grid) (h : masks ≠ []) :
    (broadcastMasks batch masks).length = batch := by
  unfold broadcastMasks
  split
  · assumption
  · cases masks with
    | nil => exact absurd rfl h
    | cons m rest => simp

/-- C7: for every mask with values in `[0, 1]` and every positive falloff, the
soft alpha built by the Alpha Mask Builder step
(`alpha = floor(M) * gaussian_blur(binary_erosion(floor(M), f), f)`) is
pointwise at most the mask, stays in `[0, 1]`, and its support is contained in
the support of the floored mask. -/
theorem build_alpha_invariants (m : Grid) (falloff : ℕ) (hf : 0 < falloff)
    (hm : ∀ p q : ℤ, 0 ≤ m p q ∧ m p q ≤ 1) (p q : ℤ) :
    build_alpha m falloff p q ≤ m p q
      ∧ 0 ≤ build_alpha m falloff p q ∧ build_alpha m falloff p q ≤ 1
      ∧ (build_alpha m falloff p q ≠ 0 → floorG m p q ≠ 0) := by
  have hb := gaussian_blur_bounds (binary_erosion (floorG m) falloff) falloff
    (fun a b => binary_erosion_bounds (floorG m) falloff a b) p q
  have halpha : build_alpha m falloff p q
      = floorG m p q * gaussian_blur (binary_erosion (floorG m) falloff) falloff p q := by
    simp [build_alpha, hf]
  rcases lt_or_eq_of_le (hm p q).2 with hlt | heq
  · have hfl : floorG m p q = 0 := by
      have : ⌊m p q⌋ = 0 := Int.floor_eq_zero_iff.mpr ⟨(hm p q).1, hlt⟩
      simp [floorG, floorQ, this]
    have hzero : build_alpha m falloff p q = 0 := by
      rw [halpha, hfl, zero_mul]
    refine ⟨?_, ?_, ?_, ?_⟩
    · rw [hzero]; exact (hm p q).1
    · rw [hzero]
    · rw [hzero]; norm_num
    · intro hne; exact absurd hzero hne
  · have hfl : floorG m p q = 1 := by
      simp only [floorG, floorQ, heq]
      norm_num
    have hval : build_alpha m falloff p q
        = gaussian_blur (binary_erosion (floorG m) falloff) falloff p q := by
      rw [halpha, hfl, one_mul]
    refine ⟨?_, ?_, ?_, ?_⟩
    · rw [hval, heq]; exact hb.2
    · rw [hval]; exact hb.1
    · rw [hval]; exact hb.2
    · intro _; rw [hfl]; norm_num

/-- Witness for C7: the constant-one mask with falloff 1 at the origin. -/
theorem build_alpha_invariants_witness :
    (0 : ℕ) < 1
      ∧ (build_alpha gone 1 0 0 ≤ gone 0 0
          ∧ 0 ≤ build_alpha gone 1 0 0 ∧ build_alpha gone 1 0 0 ≤ 1
          ∧ (build_alpha gone 1 0 0 ≠ 0 → floorG gone 0 0 ≠ 0)) := by
  refine ⟨by decide, ?_⟩
  exact build_alpha_invariants gone 1 (by decide)
    (fun p q => ⟨zero_le_one, le_refl 1⟩) 0 0

/-- C8: `MaskedFill` with `fill = "neutral"` maps every pixel channel to
`(pixel - 0.5) * (1 - alpha) + 0.5`; with an all-ones mask and falloff 0,
every pixel under the mask becomes exactly `0.5` in each channel. -/
theorem maskedFill_neutral_spec (image : Img) (mask : Grid) (falloff : ℕ)
    (c : Fin 3) (p q : ℤ) :
    maskedFill_neutral image mask falloff c p q
        = (image c p q - 1 / 2) * (1 - build_alpha mask (make_odd falloff) p q) + 1 / 2
      ∧ ((∀ a b : ℤ, mask a b = 1) → falloff = 0 →
          maskedFill_neutral image mask falloff c p q = 1 / 2) := by
  refine ⟨rfl, ?_⟩
  intro hmask hf
  subst hf
  have h0 : make_odd 0 = 0 := rfl
  have halpha : build_alpha mask (make_odd 0) p q = 1 := by
    rw [h0]
    simp [build_alpha, floorG, floorQ, hmask p q]
  simp only [maskedFill_neutral, halpha]
  ring

/-- Witness for C8: the constant image 3/10 with the all-ones mask and
falloff 0 at the origin: the formula holds and the output is exactly 1/2. -/
theorem maskedFill_neutral_spec_witness :
    maskedFill_neutral imgEx gone 0 0 0 0
        = (imgEx 0 0 0 - 1 / 2) * (1 - build_alpha gone (make_odd 0) 0 0) + 1 / 2
      ∧ maskedFill_neutral imgEx gone 0 0 0 0 = 1 / 2 := by
  refine ⟨(maskedFill_neutral_spec imgEx gone 0 0 0 0).1, ?_⟩
  exact (maskedFill_neutral_spec imgEx gone 0 0 0 0).2 (fun a b => rfl) rfl

/-- C6: every batch item of `InpaintWithModel` is composited as
`original + (model_output - original) * floor(mask)`: where the floored mask
is 0 the output equals the original image exactly, and where it is 1 the
output equals the denormalized model output exactly; no soft alpha enters
this composite. -/
theorem inpaintWithModel_composite (runItem : Img → Grid → Img) (images : List Img)
    (masks : List Grid) (i : ℕ) (c : Fin 3) (p q : ℤ)
    (hi : i < images.length) (hm : masks ≠ []) :
    ((inpaintWithModel runItem images masks).getD i izero) c p q
        = (images.getD i izero) c p q
          + ((runItem (images.getD i izero)
                ((broadcastMasks images.length masks).getD i gzero)) c p q
              - (images.getD i izero) c p q)
            * floorQ (((broadcastMasks images.length masks).getD i gzero) p q)
      ∧ (floorQ (((broadcastMasks images.length masks).getD i gzero) p q) = 0 →
          ((inpaintWithModel runItem images masks).getD i izero) c p q
            = (images.getD i izero) c p q)
      ∧ (floorQ (((broadcastMasks images.length masks).getD i gzero) p q) = 1 →
          ((inpaintWithModel runItem images masks).getD i izero) c p q
            = (runItem (images.getD i izero)
                ((broadcastMasks images.length masks).getD i gzero)) c p q) := by
  have hbm : (broadcastMasks images.length masks).length = images.length :=
    broadcastMasks_length images.length masks hm
  have hzip : i < (images.zip (broadcastMasks images.length masks)).length := by
    rw [List.length_zip, hbm]
    omega
  have hres : (inpaintWithModel runItem images masks).getD i izero
      = compositeChannels (images.getD i izero)
          (runItem (images.getD i izero) ((broadcastMasks images.length masks).getD i gzero))
          ((broadcastMasks images.length masks).getD i gzero) := by
    simp only [inpaintWithModel]
    rw [List.getD_eq_getElem _ _ (by simpa using hzip), List.getElem_map, List.getElem_zip,
      List.getD_eq_getElem _ _ hi, List.getD_eq_getElem _ _ (by rw [hbm]; exact hi)]
  rw [hres]
  refine ⟨rfl, ?_, ?_⟩
  · intro h
    simp only [compositeChannels, h, mul_zero, add_zero]
  · intro h
    simp only [compositeChannels, h, mul_one]
    ring

/-- Witness for C6: one image, one all-ones mask, identity model stub. -/
theorem inpaintWithModel_composite_witness :
    (0 : ℕ) < ([imgEx] : List Img).length ∧ ([gone] : List Grid) ≠ []
      ∧ ((inpaintWithModel runId [imgEx] [gone]).getD 0 izero) 0 0 0
          = ([imgEx].getD 0 izero) 0 0 0
            + ((runId ([imgEx].getD 0 izero)
                  ((broadcastMasks ([imgEx] : List Img).length [gone]).getD 0 gzero)) 0 0 0
                - ([imgEx].getD 0 izero) 0 0 0)
              * floorQ (((broadcastMasks ([imgEx] : List Img).length [gone]).getD 0 gzero) 0 0) := by
  refine ⟨by decide, List.cons_ne_nil _ _, ?_⟩
  exact (inpaintWithModel_composite runId [imgEx] [gone] 0 0 0 0 (by decide)
    (List.cons_ne_nil _ _)).1

/-- C10: when the mask batch size differs from the image batch size — even
with more than one mask in the batch — only the first mask is used, repeated
once per image: the run equals the run on `first mask` replicated, and every
batch item is composited with the first mask; the remaining masks are
ignored. -/
theorem inpaintWithModel_first_mask (runItem : Img → Grid → Img) (images : List Img)
    (m : Grid) (rest : List Grid)
    (hne : (m :: rest).length ≠ images.length) :
    inpaintWithModel runItem images (m :: rest)
        = inpaintWithModel runItem images (List.replicate images.length m)
      ∧ ∀ i, i < images.length →
          (inpaintWithModel runItem images (m :: rest)).getD i izero
            = compositeChannels (images.getD i izero)
                (runItem (images.getD i izero) m) m := by
  have hb1 : broadcastMasks images.length (m :: rest) = List.replicate images.length m := by
    unfold broadcastMasks
    rw [if_neg hne]
  have hb2 : broadcastMasks images.length (List.replicate images.length m)
      = List.replicate images.length m := by
    unfold broadcastMasks
    rw [if_pos (List.length_replicate _ _)]
  constructor
  · unfold inpaintWithModel
    rw [hb1, hb2]
  · intro i hi
    have hzip : i < (images.zip (List.replicate images.length m)).length := by
      rw [List.length_zip, List.length_replicate]
      omega
    simp only [inpaintWithModel, hb1]
    rw [List.getD_eq_getElem _ _ (by simpa using hzip), List.getElem_map, List.getElem_zip,
      List.getD_eq_getElem _ _ hi, List.getElem_replicate]

/-- Witness for C10: one image against a two-mask batch — the result equals
the run with the first mask replicated. -/
theorem inpaintWithModel_first_mask_witness :
    ((gone :: [gzero]) : List Grid).length ≠ ([imgEx] : List Img).length
      ∧ inpaintWithModel runId [imgEx] (gone :: [gzero])
          = inpaintWithModel runId [imgEx]
              (List.replicate ([imgEx] : List Img).length gone) := by
  refine ⟨by decide, ?_⟩
  exact (inpaintWithModel_first_mask runId [imgEx] gone [gzero] (by decide)).1

/-- C9: under the precondition `0 <= offset < threshold <= 1`,
`DenoiseToCompositingMask.convert` returns
`clamp((mask - offset) / (threshold - offset), 0, 1)` — a value exactly
`offset` maps to 0, exactly `threshold` maps to 1, and values outside
`[offset, threshold]` clamp to 0 or 1 — and it fails (raises) whenever
`offset >= threshold`. -/
theorem convert_spec (m o t : ℚ) :
    (0 ≤ o → o < t → t ≤ 1 →
        convert m o t = some (clampQ ((m - o) / (t - o)))
          ∧ (m = o → convert m o t = some 0)
          ∧ (m = t → convert m o t = some 1)
          ∧ (m < o → convert m o t = some 0)
          ∧ (t < m → convert m o t = some 1))
      ∧ (t ≤ o → convert m o t = none) := by
  constructor
  · intro h0 hot ht1
    have hpos : 0 < t - o := sub_pos.mpr hot
    have hconv : convert m o t = some (clampQ ((m - o) * (1 / (t - o)))) := by
      simp [convert, h0, hot, ht1]
    have hdiv : (m - o) * (1 / (t - o)) = (m - o) / (t - o) := mul_one_div _ _
    refine ⟨by rw [hconv, hdiv], ?_, ?_, ?_, ?_⟩
    · intro hmo
      rw [hconv, hdiv, hmo, sub_self, zero_div]
      norm_num [clampQ]
    · intro hmt
      rw [hconv, hdiv, hmt, div_self (ne_of_gt hpos)]
      norm_num [clampQ]
    · intro hlt
      have hneg : (m - o) / (t - o) < 0 := div_neg_of_neg_of_pos (sub_neg.mpr hlt) hpos
      rw [hconv, hdiv]
      congr 1
      unfold clampQ
      rw [min_eq_right (le_of_lt (lt_of_lt_of_le hneg zero_le_one)),
        max_eq_left (le_of_lt hneg)]
    · intro hgt
      have hone : 1 < (m - o) / (t - o) :=
        (one_lt_div hpos).mpr (sub_lt_sub_right hgt o)
      rw [hconv, hdiv]
      congr 1
      unfold clampQ
      rw [min_eq_left (le_of_lt hone), max_eq_right zero_le_one]
  · intro hto
    simp only [convert]
    rw [if_neg]
    rintro ⟨-, hot, -⟩
    exact absurd hot (not_lt.mpr hto)

/-- Witness for C9: a mask value exactly at the offset maps to 0, and an
inverted range fails. -/
theorem convert_spec_witness :
    convert (1 / 10) (1 / 10) (1 / 5) = some 0
      ∧ convert (3 / 10) (1 / 5) (1 / 10) = none := by
  constructor
  · exact ((convert_spec (1 / 10) (1 / 10) (1 / 5)).1
      (by norm_num) (by norm_num) (by norm_num)).2.1 rfl
  · exact (convert_spec (3 / 10) (1 / 5) (1 / 10)).2 (by norm_num)

end InpaintNodes
